import Mathlib

/-!
# Verification of the mwc-wallet owner API and HTTP node client

Shallow embedding of the wallet state machine, the slate finalization
protocol, the restore engine and the HTTP node client of the mwc-wallet
repository (`src/api/src/owner.rs`, `src/impls/src/node_clients/http.rs`),
together with proofs of the specified properties.

The owner API file under `src/api` is a thin wrapper delegating to the
`libwallet::api_impl::owner` implementation, which is not part of this
snapshot; those operations are therefore modelled from the specification
text (each such definition is marked `Modelled from the spec:`).  The HTTP
node client functions (`post_tx`, `get_outputs_from_node`,
`get_outputs_by_pmmr_index`) are embedded directly from the source.
-/

namespace MwcWallet

/-- Status of a wallet-tracked output
(spec §3, `Output.status ∈ {Unconfirmed, Unspent, Locked, Spent}`). -/
inductive OutputStatus
  | Unconfirmed
  | Unspent
  | Locked
  | Spent
deriving DecidableEq

/-- Kind of a transaction log entry (spec §3, `TxLogEntry.kind`). -/
inductive TxLogEntryType
  | TxSent
  | TxReceived
  | TxSentCancelled
  | TxReceivedCancelled
  | ConfirmedCoinbase
deriving DecidableEq

/-- Wallet error kinds relevant to the owner API (spec §7 taxonomy). -/
inductive ErrorKind
  | InsufficientFunds
  | InvalidSignature
  | IncompleteParticipantData
  | AmbiguousSelector
  | WalletHasExistingOutputs
  | ClientCallback (msg : String)
  | NotFound
deriving DecidableEq

/-- A wallet-tracked output (spec §3, `Output`): commitment (abstracted to a
`Nat` key), value, discovery height, coinbase flag, status and the id of the
owning transaction log entry. -/
structure OutputData where
  commit : Nat
  value : Nat
  height : Nat
  isCoinbase : Bool
  status : OutputStatus
  txLogId : Option Nat
deriving DecidableEq

/-- A logical transaction record (spec §3, `TxLogEntry`). -/
structure TxLogEntry where
  entryId : Nat
  kind : TxLogEntryType
  slateId : Option Nat
  amountCredited : Nat
  numOutputs : Nat
deriving DecidableEq

/-- The wallet's persisted bookkeeping: OutputSet and TransactionLog
(spec §3, exclusively owned by one wallet backend instance). -/
structure WalletState where
  outputs : List OutputData
  txLog : List TxLogEntry
deriving DecidableEq

/-! `tx_lock_outputs` (spec §4.1)

Modelled from the spec: the implementation `owner::tx_lock_outputs` lives in
`libwallet::api_impl`, outside this snapshot; `src/api/src/owner.rs` only
delegates to it.  Per the spec it "transitions every Unspent output matching
a slate input, owned by the active account, to Locked, and binds them to the
owning TxLogEntry"; the `participant_id` argument does not influence which
outputs are locked. -/

/-- Lock one output if it matches a slate input and is Unspent. -/
def lockOutput (slateInputs : List Nat) (logId : Nat) (o : OutputData) : OutputData :=
  if o.status = OutputStatus.Unspent ∧ o.commit ∈ slateInputs then
    { o with status := OutputStatus.Locked, txLogId := some logId }
  else
    o

/-- Modelled from the spec: `tx_lock_outputs` — every Unspent output whose
commitment appears among the slate's inputs becomes Locked and is bound to
the owning TxLogEntry `logId`. -/
def tx_lock_outputs (w : WalletState) (slateInputs : List Nat)
    (_participantId : Nat) (logId : Nat) : WalletState :=
  { w with outputs := w.outputs.map (lockOutput slateInputs logId) }

/-! `cancel_tx` (spec §4.2)

Modelled from the spec: the implementation `owner::cancel_tx` lives in
`libwallet::api_impl`, outside this snapshot.  Per the spec: "exactly one
selector must be supplied — `AmbiguousSelector` if both or neither given";
then it "sets the entry to its cancelled variant, deletes Unconfirmed
outputs it created, and reverts its Locked inputs to Unspent". -/

/-- Cancelled variant of a transaction log entry kind. -/
def cancelKind : TxLogEntryType → TxLogEntryType
  | TxLogEntryType.TxSent => TxLogEntryType.TxSentCancelled
  | TxLogEntryType.TxReceived => TxLogEntryType.TxReceivedCancelled
  | k => k

/-- Set a transaction log entry to its cancelled variant. -/
def cancelTxLogEntry (e : TxLogEntry) : TxLogEntry :=
  { e with kind := cancelKind e.kind }

/-- Cancellation effect on the output set for the entry `logId`: Locked
inputs revert to Unspent, Unconfirmed outputs are deleted, everything else
is untouched. -/
def cancelOutputs (outs : List OutputData) (logId : Nat) : List OutputData :=
  outs.filterMap (fun o =>
    if o.txLogId = some logId then
      if o.status = OutputStatus.Locked then
        some { o with status := OutputStatus.Unspent }
      else if o.status = OutputStatus.Unconfirmed then
        none
      else
        some o
    else
      some o)

/-- Modelled from the spec: `cancel_tx(tx_id_or_slate_id)` — exactly one of
the two selectors must be supplied (`AmbiguousSelector` otherwise); the
selected entry is set to its cancelled variant, its Unconfirmed outputs are
deleted and its Locked inputs revert to Unspent. -/
def cancel_tx (w : WalletState) (txId : Option Nat) (txSlateId : Option Nat) :
    Except ErrorKind WalletState :=
  match txId, txSlateId with
  | some _, some _ => Except.error ErrorKind.AmbiguousSelector
  | none, none => Except.error ErrorKind.AmbiguousSelector
  | some i, none =>
    match w.txLog.find? (fun e => e.entryId = i) with
    | none => Except.error ErrorKind.NotFound
    | some _ =>
      Except.ok
        { outputs := cancelOutputs w.outputs i,
          txLog := w.txLog.map (fun e =>
            if e.entryId = i then cancelTxLogEntry e else e) }
  | none, some u =>
    match w.txLog.find? (fun e => e.slateId = some u) with
    | none => Except.error ErrorKind.NotFound
    | some e =>
      Except.ok
        { outputs := cancelOutputs w.outputs e.entryId,
          txLog := w.txLog.map (fun x =>
            if x.entryId = e.entryId then cancelTxLogEntry x else x) }

/-! Slates and `finalize_tx` (spec §3, §4.1)

Modelled from the spec: the implementation `owner::finalize_tx` lives in
`libwallet::api_impl`, outside this snapshot.  Commitments live in an
additively written homomorphic commitment group, embedded as `Int × Int`:
the first component is the coefficient of the value generator `H`, the
second the coefficient of the blinding generator `G`.  `fee·H` is then
`(fee, 0)`. -/

/-- A commitment-group element: `(h, g)` stands for `h·H + g·G`. -/
abbrev GEl := Int × Int

/-- The `ParticipantData` record of a slate (spec §3). -/
structure ParticipantData where
  pid : Nat
  publicBlindExcess : GEl
  publicNonce : GEl
  partSig : Option Int
  message : Option String
  messageSig : Option Int
deriving DecidableEq

/-- A transaction kernel (spec §3, §6 slate wire shape). -/
structure TxKernel where
  excess : GEl
  excessSig : Option Int
  fee : Nat
  lockHeight : Nat
deriving DecidableEq

/-- The partial transaction carried by a slate: input commitments, output
(commitment, range-proof) pairs and the kernel (spec §3). -/
structure SlateTx where
  inputs : List GEl
  outputs : List (GEl × Nat)
  kernel : TxKernel
deriving DecidableEq

/-- A transaction under construction (spec §3, `Slate`). -/
structure Slate where
  sid : Nat
  version : Nat
  numParticipants : Nat
  amount : Nat
  fee : Nat
  height : Nat
  lockHeight : Nat
  tx : SlateTx
  participantData : List ParticipantData
deriving DecidableEq

/-- Sum of the slate's output commitments. -/
def outputSum (s : Slate) : GEl := (s.tx.outputs.map Prod.fst).sum

/-- Sum of the slate's input commitments. -/
def inputSum (s : Slate) : GEl := s.tx.inputs.sum

/-- The kernel fee times the value generator `H`. -/
def feeH (s : Slate) : GEl := ((s.tx.kernel.fee : Int), 0)

/-- The mandatory balance invariant (spec §3, §4.1):
`Σ output_commitments − Σ input_commitments − fee·H = kernel_excess`. -/
def slateBalanced (s : Slate) : Prop :=
  outputSum s - inputSum s - feeH s = s.tx.kernel.excess

/-- Boolean balance check used by `finalize_tx`. -/
def balanceOk (s : Slate) : Bool :=
  decide (outputSum s - inputSum s - feeH s = s.tx.kernel.excess)

/-- Completeness: `ParticipantData` is present from every expected participant
and every participant has supplied a partial signature. -/
def participantsComplete (s : Slate) : Bool :=
  decide (s.participantData.length = s.numParticipants) &&
    s.participantData.all (fun p => p.partSig.isSome)

/-- Sum of the supplied partial signatures (the aggregated signature scalar). -/
def sumPartSigs (s : Slate) : Int :=
  (s.participantData.filterMap (fun p => p.partSig)).sum

/-- Combined public nonce of all participants. -/
def nonceSum (s : Slate) : GEl :=
  (s.participantData.map (fun p => p.publicNonce)).sum

/-- Combined public blinding excess of all participants. -/
def pubExcessSum (s : Slate) : GEl :=
  (s.participantData.map (fun p => p.publicBlindExcess)).sum

/-- Concrete stand-in for the shared-challenge hash derived from the
combined nonce, the combined public excess and the kernel excess. -/
def challengeHash (r x k : GEl) : Int :=
  r.1 + 2 * r.2 + 3 * x.1 + 5 * x.2 + 7 * k.1 + 11 * k.2

/-- The aggregated signature verifies against the combined public excess:
`s_total·G = R_total + e·X_total` in the commitment group. -/
def aggSigValid (s : Slate) : Bool :=
  let e := challengeHash (nonceSum s) (pubExcessSum s) s.tx.kernel.excess
  decide ((((0 : Int), sumPartSigs s) : GEl) =
    nonceSum s + (e * (pubExcessSum s).1, e * (pubExcessSum s).2))

/-- Modelled from the spec: `finalize_tx` — requires `ParticipantData` from
every expected participant (`IncompleteParticipantData` otherwise), enforces
the balance invariant and verifies the aggregated signature
(`InvalidSignature` if either fails, the balance check independent of
signature validity), then assembles the completed kernel. -/
def finalize_tx (s : Slate) : Except ErrorKind Slate :=
  if participantsComplete s = false then
    Except.error ErrorKind.IncompleteParticipantData
  else if balanceOk s && aggSigValid s then
    Except.ok
      { s with tx := { s.tx with kernel :=
          { s.tx.kernel with excessSig := some (sumPartSigs s) } } }
  else
    Except.error ErrorKind.InvalidSignature

/-- Replace the commitment of the `i`-th output, keeping its range proof:
the tampering of C1. -/
def setOutputCommit : List (GEl × Nat) → Nat → GEl → List (GEl × Nat)
  | [], _, _ => []
  | o :: rest, 0, c => (c, o.2) :: rest
  | o :: rest, Nat.succ i, c => o :: setOutputCommit rest i c

/-- A slate with the `i`-th output commitment tampered to `c`. -/
def tamperOutput (s : Slate) (i : Nat) (c : GEl) : Slate :=
  { s with tx := { s.tx with outputs := setOutputCommit s.tx.outputs i c } }

/-! `restore` (spec §4.4)

Modelled from the spec: the implementation `owner::restore` lives in
`libwallet::api_impl`, outside this snapshot.  The chain pagination and
range-proof rewind pipeline is abstracted as the list of discovered outputs
it yields; `restore` requires an empty OutputSet and otherwise fails with
`WalletHasExistingOutputs` without mutating anything.  Discovered
non-coinbase outputs become Unspent sharing one aggregating TxLogEntry
(id 0); each coinbase discovery receives its own TxLogEntry (ids 1, 2, …). -/

/-- An output discovered by the restore scan: commitment, rewound value,
height and coinbase flag. -/
structure Discovered where
  commit : Nat
  value : Nat
  height : Nat
  isCoinbase : Bool
deriving DecidableEq

/-- The wallet record created for a discovered output: always Unspent,
bound to the log entry `logId`. -/
def restoredOutput (logId : Nat) (d : Discovered) : OutputData :=
  { commit := d.commit, value := d.value, height := d.height,
    isCoinbase := d.isCoinbase, status := OutputStatus.Unspent,
    txLogId := some logId }

/-- Outputs for the discovered coinbase list, bound to entry ids
`nextId, nextId+1, …` — one entry per coinbase output. -/
def coinbaseOutputsFrom (nextId : Nat) : List Discovered → List OutputData
  | [] => []
  | d :: rest => restoredOutput nextId d :: coinbaseOutputsFrom (nextId + 1) rest

/-- One TxLogEntry per discovered coinbase output, ids `nextId, nextId+1, …`. -/
def coinbaseEntriesFrom (nextId : Nat) : List Discovered → List TxLogEntry
  | [] => []
  | d :: rest =>
    { entryId := nextId, kind := TxLogEntryType.ConfirmedCoinbase,
      slateId := none, amountCredited := d.value, numOutputs := 1 } ::
      coinbaseEntriesFrom (nextId + 1) rest

/-- The single aggregating TxLogEntry shared by the discovered non-coinbase
outputs. -/
def ncbEntry (found : List Discovered) : TxLogEntry :=
  { entryId := 0, kind := TxLogEntryType.TxReceived, slateId := none,
    amountCredited :=
      ((found.filter (fun d => !d.isCoinbase)).map (fun d => d.value)).sum,
    numOutputs := (found.filter (fun d => !d.isCoinbase)).length }

/-- The wallet state built by a restore run from the discovered outputs. -/
def restoreBuild (found : List Discovered) : WalletState :=
  { outputs :=
      (found.filter (fun d => !d.isCoinbase)).map (restoredOutput 0) ++
        coinbaseOutputsFrom 1 (found.filter (fun d => d.isCoinbase)),
    txLog :=
      (if (found.filter (fun d => !d.isCoinbase)).isEmpty then []
       else [ncbEntry found]) ++
        coinbaseEntriesFrom 1 (found.filter (fun d => d.isCoinbase)) }

/-- Modelled from the spec: `restore()` — fails with
`WalletHasExistingOutputs` on a non-empty OutputSet, mutating nothing;
on an empty OutputSet it rebuilds the wallet from the discovered outputs. -/
def restore (w : WalletState) (found : List Discovered) :
    WalletState × Except ErrorKind Unit :=
  if w.outputs.isEmpty then (restoreBuild found, Except.ok ())
  else (w, Except.error ErrorKind.WalletHasExistingOutputs)

/-! The account registry (spec §3, §4)

Modelled from the spec: the implementation `owner::create_account_path`
lives in `libwallet::api_impl`, outside this snapshot.  Labels map to
two-element derivation paths; `"default"` maps to the first path `m/0/0`
and each new account receives the next unused top-level index. -/

/-- Label ↔ two-element derivation path (spec §3, `AcctPathMapping`). -/
structure AcctPathMapping where
  label : String
  pathFirst : Nat
  pathSecond : Nat
deriving DecidableEq

/-- The next unused top-level derivation index: one past the highest
top-level index in use. -/
def nextTopLevelIndex (accts : List AcctPathMapping) : Nat :=
  (accts.map (fun a => a.pathFirst)).foldr max 0 + 1

/-- Modelled from the spec: `create_account_path` — maps the new label to
the next unused top-level index, returning the updated registry and the new
path. -/
def create_account_path (accts : List AcctPathMapping) (label : String) :
    List AcctPathMapping × (Nat × Nat) :=
  let i := nextTopLevelIndex accts
  (accts ++ [{ label := label, pathFirst := i, pathSecond := 0 }], (i, 0))

/-! The HTTP node client (`src/impls/src/node_clients/http.rs`)

These definitions are embedded from the source.  The HTTP transport itself
is abstracted as a function from the request URL to the node's response. -/

/-- A wrapped transaction as posted to the node. -/
structure TxWrapper where
  txHex : String
deriving DecidableEq

/-- The pool push path of the node API. -/
def pushTxPath : String := "/v1/pool/push_tx"

/-- The pool push path with the fluff query string requesting immediate
network-wide broadcast. -/
def pushTxFluffPath : String := "/v1/pool/push_tx?fluff"

/-- The error message prefixed to a failed post (http.rs:130). -/
def postTxErrMsg : String := "Posting transaction to node: "

/-- URL construction of `HTTPNodeClient::post_tx` (http.rs:112-118): with
`fluff` the query string `?fluff` requests immediate broadcast. -/
def post_tx_url (nodeUrl : String) (fluff : Bool) : String :=
  if fluff then nodeUrl ++ pushTxFluffPath
  else nodeUrl ++ pushTxPath

/-- The function `HTTPNodeClient::post_tx` (http.rs:111-135): one call to the transport
on the selected URL; a transport failure is wrapped as `ClientCallback`,
success returns `()`.  There is no retry — the single transport response
fully determines the result. -/
def http_post_tx (transport : String → TxWrapper → Except String Unit)
    (nodeUrl : String) (tx : TxWrapper) (fluff : Bool) : Except ErrorKind Unit :=
  match transport (post_tx_url nodeUrl fluff) tx with
  | Except.error e =>
    Except.error (ErrorKind.ClientCallback (postTxErrMsg ++ e))
  | Except.ok _ => Except.ok ()

/-- An output as returned by the node's `outputs/byids` endpoint
(`api::Output`): commitment, height and mmr index. -/
structure ApiOutput where
  commit : Nat
  height : Nat
  mmrIndex : Nat
deriving DecidableEq

/-- Rust `Vec::chunks` with fuel: splits `l` into consecutive chunks of `n`
elements (the last possibly shorter).  The fuel bounds the recursion and is
never exhausted when it is at least `l.length`. -/
def chunksGo {α : Type u} (n : Nat) : Nat → List α → List (List α)
  | _, [] => []
  | 0, l => [l]
  | Nat.succ f, x :: xs => (x :: xs.take (n - 1)) :: chunksGo n f (xs.drop (n - 1))

/-- Rust `Vec::chunks(n)`: consecutive chunks of `n` elements. -/
def chunksOf {α : Type u} (n : Nat) (l : List α) : List (List α) :=
  chunksGo n l.length l

/-- Remove every binding of a key. -/
def eraseKey {β : Type v} (k : Nat) : List (Nat × β) → List (Nat × β)
  | [] => []
  | p :: rest => if p.1 = k then eraseKey k rest else p :: eraseKey k rest

/-- Insert into the commitment-keyed map (`HashMap::insert`: the new binding
replaces any previous binding of the key). -/
def mapInsert {β : Type v} (m : List (Nat × β)) (k : Nat) (v : β) :
    List (Nat × β) :=
  (k, v) :: eraseKey k m

/-- Lookup in the commitment-keyed map. -/
def mapFind {β : Type v} (m : List (Nat × β)) (k : Nat) : Option β :=
  match m with
  | [] => none
  | p :: rest => if p.1 = k then some p.2 else mapFind rest k

/-- Stand-in for `util::to_hex` of a commitment. -/
def commitHex (n : Nat) : String := toString n

/-- The function `HTTPNodeClient::get_outputs_from_node` (http.rs:162-217): the
requested commitments are split into chunks of 200 per HTTP request
(http.rs:178); every output of every per-chunk response is inserted into a
single map keyed by its commitment. -/
def get_outputs_from_node (node : List Nat → List ApiOutput)
    (walletOutputs : List Nat) : List (Nat × (String × Nat × Nat)) :=
  ((chunksOf 200 walletOutputs).map node).flatten.foldl
    (fun m out => mapInsert m out.commit (commitHex out.commit, out.height, out.mmrIndex))
    []

/-- The `api::OutputType` of the txhashset listing endpoint. -/
inductive ApiOutputType
  | Coinbase
  | Transaction
deriving DecidableEq

/-- An output of the node's `txhashset/outputs` page: the range proof and
block height are optional in the node's wire format. -/
structure NodeApiOutput where
  outputType : ApiOutputType
  commit : Nat
  rangeProofHex : Option Nat
  blockHeight : Option Nat
  mmrIndex : Nat
deriving DecidableEq

/-- The node's `txhashset/outputs` response (`api::OutputListing`). -/
structure OutputListing where
  highestIndex : Nat
  lastRetrievedIndex : Nat
  outputs : List NodeApiOutput
deriving DecidableEq

/-- The tuple pushed per listed output (http.rs:258-264):
`(commit, range_proof().unwrap(), is_coinbase, block_height.unwrap(),
mmr_index)`.  `none` models the panic of `unwrap` on a missing field. -/
def pmmrEntry (out : NodeApiOutput) : Option (Nat × Nat × Bool × Nat × Nat) := do
  let rp ← out.rangeProofHex
  let bh ← out.blockHeight
  pure (out.commit, rp,
    (match out.outputType with
     | ApiOutputType.Coinbase => true
     | ApiOutputType.Transaction => false), bh, out.mmrIndex)

/-- The conversion loop of `get_outputs_by_pmmr_index`: the first output
with a missing field aborts everything (`unwrap` panics). -/
def pmmrEntries : List NodeApiOutput → Option (List (Nat × Nat × Bool × Nat × Nat))
  | [] => some []
  | out :: rest => do
    let e ← pmmrEntry out
    let es ← pmmrEntries rest
    pure (e :: es)

/-- The error message prefixed to a failed listing request (http.rs:275). -/
def pmmrErrMsg : String := "outputs by pmmr index: "

/-- The function `HTTPNodeClient::get_outputs_by_pmmr_index` (http.rs:219-279).  The
outer `Option` models partiality: `none` is a panic, `some` a returned
`Result`.  A failed node call becomes `Err(ClientCallback …)`; a successful
response is converted output by output, unwrapping the optional fields. -/
def get_outputs_by_pmmr_index (resp : Except String OutputListing) :
    Option (Except ErrorKind (Nat × Nat × List (Nat × Nat × Bool × Nat × Nat))) :=
  match resp with
  | Except.error e =>
    some (Except.error (ErrorKind.ClientCallback (pmmrErrMsg ++ e)))
  | Except.ok o =>
    (pmmrEntries o.outputs).map
      (fun l => Except.ok (o.highestIndex, o.lastRetrievedIndex, l))

/-! Concrete fixtures used by the witness theorems -/

/-- A concrete slate accepted by `finalize_tx`. -/
def slateW : Slate :=
  { sid := 1, version := 2, numParticipants := 1, amount := 5, fee := 5,
    height := 0, lockHeight := 0,
    tx :=
      { inputs := [],
        outputs := [(((5 : Int), (3 : Int)), 0)],
        kernel := { excess := ((0 : Int), (3 : Int)), excessSig := none,
                    fee := 5, lockHeight := 0 } },
    participantData :=
      [{ pid := 0, publicBlindExcess := ((0 : Int), (0 : Int)),
         publicNonce := ((0 : Int), (1 : Int)), partSig := some 1,
         message := none, messageSig := none }] }

/-- The finalized form of `slateW`. -/
def slateWFinal : Slate :=
  { slateW with tx := { slateW.tx with kernel :=
      { slateW.tx.kernel with excessSig := some 1 } } }

/-- A concrete wallet with one Unspent input, one Unconfirmed change output
bound to log entry 7, and the owning log entry. -/
def walletW : WalletState :=
  { outputs :=
      [{ commit := 1, value := 5, height := 0, isCoinbase := false,
         status := OutputStatus.Unspent, txLogId := none },
       { commit := 2, value := 3, height := 0, isCoinbase := false,
         status := OutputStatus.Unconfirmed, txLogId := some 7 }],
    txLog :=
      [{ entryId := 7, kind := TxLogEntryType.TxSent, slateId := some 42,
         amountCredited := 0, numOutputs := 1 }] }

/-- A concrete non-empty wallet for the restore witness. -/
def walletNonEmpty : WalletState :=
  { outputs :=
      [{ commit := 9, value := 4, height := 0, isCoinbase := false,
         status := OutputStatus.Unspent, txLogId := none }],
    txLog := [] }

/-- Concrete restore discoveries: two non-coinbase outputs and two
coinbase outputs. -/
def foundW : List Discovered :=
  [{ commit := 10, value := 100, height := 1, isCoinbase := false },
   { commit := 11, value := 200, height := 2, isCoinbase := true },
   { commit := 12, value := 300, height := 3, isCoinbase := false },
   { commit := 13, value := 400, height := 4, isCoinbase := true }]

/-- A concrete registry holding the default account. -/
def acctsW : List AcctPathMapping :=
  [{ label := "default", pathFirst := 0, pathSecond := 0 }]

/-- A concrete transport failure message. -/
def connRefused : String := "connection refused"

/-- A transport that always fails. -/
def transportFail : String → TxWrapper → Except String Unit :=
  fun _ _ => Except.error connRefused

/-- A concrete node URL for the post witness. -/
def nodeUrlW : String := "http://127.0.0.1:3413"

/-- A concrete wrapped transaction for the post witness. -/
def txW : TxWrapper := { txHex := "deadbeef" }

/-- Concrete fresh account labels. -/
def savLabel : String := "savings"

/-- A second concrete fresh account label. -/
def chkLabel : String := "checking"

/-- The default account mapping of `acctsW`. -/
def defaultAcct : AcctPathMapping :=
  { label := "default", pathFirst := 0, pathSecond := 0 }

/-- A listing whose outputs all carry both optional fields. -/
def goodListing : OutputListing :=
  { highestIndex := 2, lastRetrievedIndex := 2,
    outputs :=
      [{ outputType := ApiOutputType.Coinbase, commit := 6,
         rangeProofHex := some 1, blockHeight := some 3, mmrIndex := 2 }] }

/-- The log entry of `walletW`. -/
def entryW : TxLogEntry :=
  { entryId := 7, kind := TxLogEntryType.TxSent, slateId := some 42,
    amountCredited := 0, numOutputs := 1 }

/-- The first non-coinbase discovery of `foundW`, as restored. -/
def outW : OutputData :=
  restoredOutput 0 { commit := 10, value := 100, height := 1, isCoinbase := false }

/-- A node that reports every requested commitment at height 10. -/
def nodeW : List Nat → List ApiOutput :=
  fun c => c.map (fun k => { commit := k, height := 10, mmrIndex := 20 })

/-- A listing whose single output lacks its block height: the `unwrap`
panic input. -/
def badListing : OutputListing :=
  { highestIndex := 1, lastRetrievedIndex := 1,
    outputs :=
      [{ outputType := ApiOutputType.Transaction, commit := 5,
         rangeProofHex := some 0, blockHeight := none, mmrIndex := 1 }] }

/-- C4 helper: locking an already-processed output is the identity. -/
theorem lockOutput_idem (slateInputs : List Nat) (logId : Nat) (o : OutputData) :
    lockOutput slateInputs logId (lockOutput slateInputs logId o) =
      lockOutput slateInputs logId o := by
  unfold lockOutput
  by_cases h : o.status = OutputStatus.Unspent ∧ o.commit ∈ slateInputs
  · simp only [h, if_pos h]
    have : ¬ (({ o with status := OutputStatus.Locked, txLogId := some logId } :
        OutputData).status = OutputStatus.Unspent ∧
        ({ o with status := OutputStatus.Locked, txLogId := some logId } :
        OutputData).commit ∈ slateInputs) := by
      intro hc
      exact absurd hc.1 (by simp)
    simp [this]
  · simp [h]

/-- **C4**: `tx_lock_outputs` is idempotent: calling it a second time with
the same slate inputs, participant id and owning log entry returns without
error (the model is total) and leaves the wallet state — in particular the
set of Locked outputs — identical to the state after the first call. -/
theorem tx_lock_outputs_idempotent (w : WalletState) (slateInputs : List Nat)
    (pid : Nat) (logId : Nat) :
    tx_lock_outputs (tx_lock_outputs w slateInputs pid logId) slateInputs pid logId =
      tx_lock_outputs w slateInputs pid logId := by
  unfold tx_lock_outputs
  simp only [List.map_map]
  congr 1
  apply List.map_congr_left
  intro o _
  exact lockOutput_idem slateInputs logId o

/-- **C3**: for an unfinalized slate whose outputs were locked by
`tx_lock_outputs`, `cancel_tx` exactly inverts the locking.  Hypotheses: the
only outputs already bound to the owning log entry are the Unconfirmed
outputs the transaction created, and the log entry exists.  Conclusions:
the cancel call succeeds, cancelling the entry; every previously Unspent
output — in particular every locked input — is present afterwards with
status Unspent (not Spent); and every surviving output still bound to the
cancelled entry has status Unspent, so no Unconfirmed created output
survives and no output is left orphaned in status Locked. -/
theorem cancel_tx_inverts_lock (w : WalletState) (slateInputs : List Nat)
    (pid : Nat) (logId : Nat) (e : TxLogEntry)
    (hfresh : ∀ o ∈ w.outputs, o.txLogId = some logId →
      o.status = OutputStatus.Unconfirmed)
    (hfind : w.txLog.find? (fun x => x.entryId = logId) = some e) :
    cancel_tx (tx_lock_outputs w slateInputs pid logId) (some logId) none =
      Except.ok
        { outputs :=
            cancelOutputs (tx_lock_outputs w slateInputs pid logId).outputs logId,
          txLog := w.txLog.map (fun x =>
            if x.entryId = logId then cancelTxLogEntry x else x) } ∧
    (∀ o ∈ w.outputs, o.status = OutputStatus.Unspent →
      ∃ o' ∈ cancelOutputs (tx_lock_outputs w slateInputs pid logId).outputs logId,
        o'.commit = o.commit ∧ o'.value = o.value ∧
          o'.status = OutputStatus.Unspent) ∧
    (∀ o' ∈ cancelOutputs (tx_lock_outputs w slateInputs pid logId).outputs logId,
      o'.txLogId = some logId → o'.status = OutputStatus.Unspent) := by
  have houts : (tx_lock_outputs w slateInputs pid logId).outputs =
      w.outputs.map (lockOutput slateInputs logId) := rfl
  refine ⟨?_, ?_, ?_⟩
  · show cancel_tx _ (some logId) none = _
    unfold cancel_tx
    have htxlog : (tx_lock_outputs w slateInputs pid logId).txLog = w.txLog := rfl
    rw [htxlog]
    simp only [hfind]
  · intro o ho hstatus
    by_cases hmem : o.commit ∈ slateInputs
    · refine ⟨{ o with status := OutputStatus.Unspent, txLogId := some logId },
        ?_, rfl, rfl, rfl⟩
      rw [houts]
      apply List.mem_filterMap.mpr
      refine ⟨lockOutput slateInputs logId o, List.mem_map.mpr ⟨o, ho, rfl⟩, ?_⟩
      simp [lockOutput, hstatus, hmem]
    · have hnotbound : o.txLogId ≠ some logId := by
        intro hb
        have h1 := hfresh o ho hb
        rw [hstatus] at h1
        exact absurd h1 (by intro hc; cases hc)
      refine ⟨o, ?_, rfl, rfl, hstatus⟩
      rw [houts]
      apply List.mem_filterMap.mpr
      have hid : lockOutput slateInputs logId o = o := by
        simp [lockOutput, hmem]
      refine ⟨o, ?_, ?_⟩
      · exact List.mem_map.mpr ⟨o, ho, hid⟩
      · simp [hnotbound]
  · intro o' ho' hbound
    rw [houts] at ho'
    rcases List.mem_filterMap.mp ho' with ⟨a, ha, hfa⟩
    rcases List.mem_map.mp ha with ⟨o, ho, rfl⟩
    by_cases hcond : o.status = OutputStatus.Unspent ∧ o.commit ∈ slateInputs
    · have ha2 : lockOutput slateInputs logId o =
          { o with status := OutputStatus.Locked, txLogId := some logId } := by
        simp [lockOutput, hcond]
      rw [ha2] at hfa
      simp at hfa
      rw [← hfa]
    · have ha2 : lockOutput slateInputs logId o = o := by
        simp [lockOutput, hcond]
      rw [ha2] at hfa
      by_cases hb : o.txLogId = some logId
      · have hunconf := hfresh o ho hb
        simp [hb, hunconf] at hfa
      · simp only [hb, if_neg hb] at hfa
        simp at hfa
        rw [← hfa] at hbound
        exact absurd hbound hb

/-- **C5**: `cancel_tx` requires exactly one selector: it fails with
`AmbiguousSelector` whenever both selectors or neither selector is supplied,
and whenever exactly one is supplied it never fails with
`AmbiguousSelector` (it proceeds to look the transaction up). -/
theorem cancel_tx_selector (w : WalletState) (i u : Nat) :
    cancel_tx w (some i) (some u) = Except.error ErrorKind.AmbiguousSelector ∧
    cancel_tx w none none = Except.error ErrorKind.AmbiguousSelector ∧
    cancel_tx w (some i) none ≠ Except.error ErrorKind.AmbiguousSelector ∧
    cancel_tx w none (some u) ≠ Except.error ErrorKind.AmbiguousSelector := by
  refine ⟨rfl, rfl, ?_, ?_⟩
  · unfold cancel_tx
    cases h : w.txLog.find? (fun e => e.entryId = i) <;> simp [h]
  · unfold cancel_tx
    cases h : w.txLog.find? (fun e => e.slateId = some u) <;> simp [h]

/-- C1 helper: replacing the `i`-th output commitment shifts the output sum
by the difference of the new and old commitment. -/
theorem sum_map_fst_setOutputCommit (l : List (GEl × Nat)) (i : Nat) (c : GEl)
    (h : i < l.length) :
    ((setOutputCommit l i c).map Prod.fst).sum =
      (l.map Prod.fst).sum - (l.get ⟨i, h⟩).1 + c := by
  induction l generalizing i with
  | nil => exact absurd h (by simp)
  | cons hd tl ih =>
    cases i with
    | zero =>
      simp only [setOutputCommit, List.map_cons, List.sum_cons, List.get]
      abel
    | succ j =>
      have hj : j < tl.length := Nat.lt_of_succ_lt_succ h
      simp only [setOutputCommit, List.map_cons, List.sum_cons, List.get,
        ih j hj]
      abel

/-- **C1**: every slate accepted by `finalize_tx` satisfies the balance
equation `Σ outputs − Σ inputs − fee·H = kernel_excess`; and tampering with
any output commitment of an accepted slate makes `finalize_tx` fail with
`InvalidSignature`, regardless of signature validity. -/
theorem finalize_tx_balance_and_tamper (s s2 : Slate)
    (h : finalize_tx s = Except.ok s2) :
    slateBalanced s ∧
    (∀ i : Nat, ∀ hi : i < s.tx.outputs.length, ∀ c : GEl,
      c ≠ (s.tx.outputs.get ⟨i, hi⟩).1 →
      finalize_tx (tamperOutput s i c) =
        Except.error ErrorKind.InvalidSignature) := by
  have hcomp : ¬ participantsComplete s = false := by
    intro hc
    unfold finalize_tx at h
    rw [if_pos hc] at h
    exact Except.noConfusion h
  have hval : (balanceOk s && aggSigValid s) = true := by
    by_contra hb
    unfold finalize_tx at h
    rw [if_neg hcomp, if_neg hb] at h
    exact Except.noConfusion h
  have hbal : balanceOk s = true := by
    rw [Bool.and_eq_true] at hval
    exact hval.1
  have hbalD : decide (outputSum s - inputSum s - feeH s = s.tx.kernel.excess) =
      true := hbal
  have hbalanced : slateBalanced s := by
    unfold slateBalanced
    exact of_decide_eq_true hbalD
  refine ⟨hbalanced, ?_⟩
  intro i hi c hne
  have hc2 : participantsComplete (tamperOutput s i c) = participantsComplete s :=
    rfl
  have hsum : outputSum (tamperOutput s i c) =
      outputSum s - (s.tx.outputs.get ⟨i, hi⟩).1 + c :=
    sum_map_fst_setOutputCommit s.tx.outputs i c hi
  have hbal2 : balanceOk (tamperOutput s i c) = false := by
    have hne2 : ¬ (outputSum (tamperOutput s i c) - inputSum (tamperOutput s i c) -
        feeH (tamperOutput s i c) = (tamperOutput s i c).tx.kernel.excess) := by
      intro heq
      have hin : inputSum (tamperOutput s i c) = inputSum s := rfl
      have hfee : feeH (tamperOutput s i c) = feeH s := rfl
      have hex : (tamperOutput s i c).tx.kernel.excess = s.tx.kernel.excess := rfl
      rw [hsum, hin, hfee, hex] at heq
      have hb := hbalanced
      unfold slateBalanced at hb
      have h3 : outputSum s - (s.tx.outputs.get ⟨i, hi⟩).1 + c - inputSum s -
          feeH s = outputSum s - inputSum s - feeH s := heq.trans hb.symm
      apply hne
      linear_combination h3
    exact decide_eq_false hne2
  unfold finalize_tx
  rw [if_neg (by rw [hc2]; exact hcomp)]
  rw [if_neg (by rw [hbal2]; simp)]

/-- C1 witness: a concrete accepted slate satisfies the balance equation,
and its tampered variant is rejected with `InvalidSignature`. -/
theorem finalize_tx_balance_and_tamper_witness :
    slateBalanced slateW ∧
    finalize_tx (tamperOutput slateW 0 (((9 : Int), (9 : Int)) : GEl)) =
      Except.error ErrorKind.InvalidSignature := by
  have hok : finalize_tx slateW = Except.ok slateWFinal := rfl
  have h := finalize_tx_balance_and_tamper slateW slateWFinal hok
  exact ⟨h.1, h.2 0 (by decide) ((9 : Int), (9 : Int)) (by decide)⟩

/-- **C2**: `restore` fails with `WalletHasExistingOutputs` on any wallet
whose OutputSet is non-empty, leaving the wallet state completely unchanged,
and proceeds exactly when the OutputSet is empty. -/
theorem restore_requires_empty (w : WalletState) (found : List Discovered) :
    (w.outputs ≠ [] →
      restore w found = (w, Except.error ErrorKind.WalletHasExistingOutputs)) ∧
    (w.outputs = [] → restore w found = (restoreBuild found, Except.ok ())) := by
  constructor
  · intro hne
    unfold restore
    rw [if_neg]
    intro he
    exact hne (List.isEmpty_iff.mp he)
  · intro he
    unfold restore
    rw [if_pos (List.isEmpty_iff.mpr he)]

/-- C2 witness: restoring a concrete non-empty wallet fails with
`WalletHasExistingOutputs` and returns the wallet unchanged. -/
theorem restore_requires_empty_witness :
    restore walletNonEmpty foundW =
      (walletNonEmpty, Except.error ErrorKind.WalletHasExistingOutputs) :=
  (restore_requires_empty walletNonEmpty foundW).1 (by decide)

/-- C7 helper: shape of the restored coinbase outputs — each comes from a
discovery in the list and is bound to an entry id at least `n`. -/
theorem coinbaseOutputsFrom_shape (l : List Discovered) (n : Nat) :
    ∀ o ∈ coinbaseOutputsFrom n l, ∃ k, ∃ d ∈ l, n ≤ k ∧ o = restoredOutput k d := by
  induction l generalizing n with
  | nil => intro o ho; simp [coinbaseOutputsFrom] at ho
  | cons d tl ih =>
    intro o ho
    rcases List.mem_cons.mp ho with rfl | ho
    · exact ⟨n, d, List.mem_cons_self d tl, le_refl n, rfl⟩
    · rcases ih (n + 1) o ho with ⟨k, d2, hd2, hk, h2⟩
      exact ⟨k, d2, List.mem_cons_of_mem d hd2, Nat.le_of_succ_le hk, h2⟩

/-- C7 helper: the entry ids bound to the restored coinbase outputs are
pairwise distinct. -/
theorem coinbaseOutputsFrom_nodup_ids (l : List Discovered) (n : Nat) :
    ((coinbaseOutputsFrom n l).map (fun o => o.txLogId)).Nodup := by
  induction l generalizing n with
  | nil => simp [coinbaseOutputsFrom]
  | cons d tl ih =>
    have hshape : (coinbaseOutputsFrom n (d :: tl)).map (fun o => o.txLogId) =
        some n :: (coinbaseOutputsFrom (n + 1) tl).map (fun o => o.txLogId) := rfl
    rw [hshape, List.nodup_cons]
    refine ⟨?_, ih (n + 1)⟩
    intro hmem
    rcases List.mem_map.mp hmem with ⟨o, ho, heq⟩
    rcases coinbaseOutputsFrom_shape tl (n + 1) o ho with ⟨k, d2, _, hk, rfl⟩
    have : k = n := Option.some.inj heq
    omega

/-- C7 helper: every restored coinbase output has a matching coinbase
TxLogEntry of its own. -/
theorem coinbaseOutputsFrom_entries (l : List Discovered) (n : Nat) :
    ∀ o ∈ coinbaseOutputsFrom n l,
      ∃ e ∈ coinbaseEntriesFrom n l, some e.entryId = o.txLogId := by
  induction l generalizing n with
  | nil => intro o ho; simp [coinbaseOutputsFrom] at ho
  | cons d tl ih =>
    intro o ho
    rcases List.mem_cons.mp ho with rfl | ho
    · exact ⟨_, List.mem_cons_self _ _, rfl⟩
    · rcases ih (n + 1) o ho with ⟨e, he, h2⟩
      exact ⟨e, List.mem_cons_of_mem _ he, h2⟩

/-- C7 helper: all coinbase entry ids are at least the starting id. -/
theorem coinbaseEntriesFrom_id_ge (l : List Discovered) (n : Nat) :
    ∀ e ∈ coinbaseEntriesFrom n l, n ≤ e.entryId := by
  induction l generalizing n with
  | nil => intro e he; simp [coinbaseEntriesFrom] at he
  | cons d tl ih =>
    intro e he
    rcases List.mem_cons.mp he with rfl | he
    · exact le_refl n
    · exact Nat.le_of_succ_le (ih (n + 1) e he)

/-- **C7**: in the state built by a restore run, every discovered output is
recorded as Unspent; all non-coinbase outputs are bound to the single
aggregating TxLogEntry (id 0), of which exactly one exists whenever a
non-coinbase output was discovered; each coinbase output is bound to its
own entry — never the aggregating one, pairwise distinct, and with a
matching TxLogEntry present in the log. -/
theorem restore_output_entry_structure (found : List Discovered) :
    (∀ o ∈ (restoreBuild found).outputs, o.status = OutputStatus.Unspent) ∧
    (∀ o ∈ (restoreBuild found).outputs, o.isCoinbase = false →
      o.txLogId = some 0) ∧
    (∀ o ∈ (restoreBuild found).outputs, o.isCoinbase = true →
      o.txLogId ≠ some 0) ∧
    (((restoreBuild found).outputs.filter (fun o => o.isCoinbase)).map
      (fun o => o.txLogId)).Nodup ∧
    ((found.filter (fun d => !d.isCoinbase)).isEmpty = false →
      ((restoreBuild found).txLog.filter (fun e => e.entryId = 0)).length = 1) ∧
    (∀ o ∈ (restoreBuild found).outputs, ∃ e ∈ (restoreBuild found).txLog,
      some e.entryId = o.txLogId) := by
  have houts : (restoreBuild found).outputs =
      (found.filter (fun d => !d.isCoinbase)).map (restoredOutput 0) ++
        coinbaseOutputsFrom 1 (found.filter (fun d => d.isCoinbase)) := rfl
  refine ⟨?_, ?_, ?_, ?_, ?_, ?_⟩
  · intro o ho
    rw [houts] at ho
    rcases List.mem_append.mp ho with ho | ho
    · rcases List.mem_map.mp ho with ⟨d, _, rfl⟩
      rfl
    · rcases coinbaseOutputsFrom_shape _ 1 o ho with ⟨k, d, _, _, rfl⟩
      rfl
  · intro o ho hnc
    rw [houts] at ho
    rcases List.mem_append.mp ho with ho | ho
    · rcases List.mem_map.mp ho with ⟨d, _, rfl⟩
      rfl
    · rcases coinbaseOutputsFrom_shape _ 1 o ho with ⟨k, d, hd, _, rfl⟩
      have hcb : d.isCoinbase = true := by
        have := (List.mem_filter.mp hd).2
        simpa using this
      have hcb2 : (restoredOutput k d).isCoinbase = true := hcb
      rw [hnc] at hcb2
      exact Bool.noConfusion hcb2
  · intro o ho hcb
    rw [houts] at ho
    rcases List.mem_append.mp ho with ho | ho
    · rcases List.mem_map.mp ho with ⟨d, hd, rfl⟩
      have hncb : d.isCoinbase = false := by
        have := (List.mem_filter.mp hd).2
        simpa using this
      simp [restoredOutput, hncb] at hcb
    · rcases coinbaseOutputsFrom_shape _ 1 o ho with ⟨k, d, _, hk, rfl⟩
      intro hcontra
      have : k = 0 := Option.some.inj hcontra
      omega
  · have hfilter : (restoreBuild found).outputs.filter (fun o => o.isCoinbase) =
        coinbaseOutputsFrom 1 (found.filter (fun d => d.isCoinbase)) := by
      rw [houts, List.filter_append]
      have h1 : ((found.filter (fun d => !d.isCoinbase)).map
          (restoredOutput 0)).filter (fun o => o.isCoinbase) = [] := by
        rw [List.filter_eq_nil_iff]
        intro o ho
        rcases List.mem_map.mp ho with ⟨d, hd, rfl⟩
        have hncb : d.isCoinbase = false := by
          have := (List.mem_filter.mp hd).2
          simpa using this
        simp [restoredOutput, hncb]
      have h2 : (coinbaseOutputsFrom 1
          (found.filter (fun d => d.isCoinbase))).filter
            (fun o => o.isCoinbase) =
          coinbaseOutputsFrom 1 (found.filter (fun d => d.isCoinbase)) := by
        rw [List.filter_eq_self]
        intro o ho
        rcases coinbaseOutputsFrom_shape _ 1 o ho with ⟨k, d, hd, _, rfl⟩
        have hcb : d.isCoinbase = true := by
          have := (List.mem_filter.mp hd).2
          simpa using this
        simp [restoredOutput, hcb]
      rw [h1, h2, List.nil_append]
    rw [hfilter]
    exact coinbaseOutputsFrom_nodup_ids _ 1
  · intro hne
    have hlog0 : (restoreBuild found).txLog =
        (if (found.filter (fun d => !d.isCoinbase)).isEmpty then []
         else [ncbEntry found]) ++
          coinbaseEntriesFrom 1 (found.filter (fun d => d.isCoinbase)) := rfl
    have hlog : (restoreBuild found).txLog =
        [ncbEntry found] ++
          coinbaseEntriesFrom 1 (found.filter (fun d => d.isCoinbase)) := by
      rw [hlog0, if_neg]
      intro hcontra
      rw [hne] at hcontra
      exact Bool.noConfusion hcontra
    rw [hlog, List.filter_append]
    have h2 : (coinbaseEntriesFrom 1
        (found.filter (fun d => d.isCoinbase))).filter
          (fun e => e.entryId = 0) = [] := by
      rw [List.filter_eq_nil_iff]
      intro e he
      have := coinbaseEntriesFrom_id_ge _ 1 e he
      simp
      omega
    rw [h2]
    rfl
  · intro o ho
    rw [houts] at ho
    rcases List.mem_append.mp ho with ho | ho
    · rcases List.mem_map.mp ho with ⟨d, hd, rfl⟩
      have hne : (found.filter (fun d => !d.isCoinbase)).isEmpty = false := by
        cases hl : found.filter (fun d => !d.isCoinbase) with
        | nil => rw [hl] at hd; exact absurd hd (List.not_mem_nil d)
        | cons a tl => rfl
      refine ⟨ncbEntry found, ?_, rfl⟩
      have hlog0 : (restoreBuild found).txLog =
          (if (found.filter (fun d => !d.isCoinbase)).isEmpty then []
           else [ncbEntry found]) ++
            coinbaseEntriesFrom 1 (found.filter (fun d => d.isCoinbase)) := rfl
      rw [hlog0, if_neg]
      · exact List.mem_append_left _ (List.mem_cons_self _ _)
      · intro hcontra
        rw [hne] at hcontra
        exact Bool.noConfusion hcontra
    · rcases coinbaseOutputsFrom_entries _ 1 o ho with ⟨e, he, h2⟩
      refine ⟨e, ?_, h2⟩
      have hlog0 : (restoreBuild found).txLog =
          (if (found.filter (fun d => !d.isCoinbase)).isEmpty then []
           else [ncbEntry found]) ++
            coinbaseEntriesFrom 1 (found.filter (fun d => d.isCoinbase)) := rfl
      rw [hlog0]
      exact List.mem_append_right _ he

/-- C7 witness: on the concrete discovery list, a discovered non-coinbase
output is Unspent and bound to entry 0, and exactly one aggregating
TxLogEntry with id 0 exists. -/
theorem restore_output_entry_structure_witness :
    outW.status = OutputStatus.Unspent ∧
    ((restoreBuild foundW).txLog.filter (fun e => e.entryId = 0)).length = 1 :=
  ⟨(restore_output_entry_structure foundW).1 outW (by decide),
   (restore_output_entry_structure foundW).2.2.2.2.1 (by decide)⟩

/-- C8 helper: folding `max` with an arbitrary seed. -/
theorem foldr_max_init (b : Nat) (l : List Nat) :
    l.foldr max b = max b (l.foldr max 0) := by
  induction l with
  | nil => simp
  | cons a tl ih =>
    simp only [List.foldr_cons, ih]
    omega

/-- C8 helper: every member is bounded by the `max`-fold. -/
theorem mem_le_foldr_max (l : List Nat) (a : Nat) (h : a ∈ l) :
    a ≤ l.foldr max 0 := by
  induction l with
  | nil => exact absurd h (List.not_mem_nil a)
  | cons b tl ih =>
    rcases List.mem_cons.mp h with rfl | h2
    · simp only [List.foldr_cons]
      exact Nat.le_max_left _ _
    · simp only [List.foldr_cons]
      exact le_trans (ih h2) (Nat.le_max_right _ _)

/-- C8 helper: appending the freshly assigned index bumps the next unused
top-level index by exactly one. -/
theorem nextTopLevelIndex_append (xs : List AcctPathMapping) (lab : String) :
    nextTopLevelIndex (xs ++
        [{ label := lab, pathFirst := nextTopLevelIndex xs, pathSecond := 0 }]) =
      nextTopLevelIndex xs + 1 := by
  unfold nextTopLevelIndex
  rw [List.map_append, List.foldr_append]
  simp only [List.map_cons, List.map_nil, List.foldr_cons, List.foldr_nil]
  rw [foldr_max_init]
  omega

/-- **C8**: the registry keeps every existing mapping — in particular the
`default` label on the first path — and `create_account_path` assigns the
next unused top-level index: the first call returns an index strictly above
every index in use, and a second call with another label returns exactly
the next index, so the two new paths are distinct and sequential. -/
theorem create_account_path_sequential (accts : List AcctPathMapping)
    (l1 l2 : String) :
    (create_account_path accts l1).2.1 = nextTopLevelIndex accts ∧
    (create_account_path (create_account_path accts l1).1 l2).2.1 =
      (create_account_path accts l1).2.1 + 1 ∧
    (create_account_path accts l1).2 ≠
      (create_account_path (create_account_path accts l1).1 l2).2 ∧
    (∀ m ∈ accts, m.pathFirst < (create_account_path accts l1).2.1) ∧
    (∀ m ∈ accts, m ∈ (create_account_path (create_account_path accts l1).1 l2).1) := by
  refine ⟨rfl, ?_, ?_, ?_, ?_⟩
  · exact nextTopLevelIndex_append accts l1
  · intro hcontra
    have h1 : (create_account_path accts l1).2.1 =
        (create_account_path (create_account_path accts l1).1 l2).2.1 := by
      rw [hcontra]
    have h2 : (create_account_path (create_account_path accts l1).1 l2).2.1 =
        (create_account_path accts l1).2.1 + 1 := nextTopLevelIndex_append accts l1
    omega
  · intro m hm
    have hle : m.pathFirst ≤ (accts.map (fun a => a.pathFirst)).foldr max 0 :=
      mem_le_foldr_max _ _ (List.mem_map.mpr ⟨m, hm, rfl⟩)
    show m.pathFirst < nextTopLevelIndex accts
    unfold nextTopLevelIndex
    omega
  · intro m hm
    exact List.mem_append_left _ (List.mem_append_left _ hm)

/-- C8 witness: starting from the default registry, the first new label is
assigned top-level index 1, the second index 2, and the default mapping is
preserved. -/
theorem create_account_path_sequential_witness :
    (create_account_path acctsW savLabel).2.1 = 1 ∧
    (create_account_path (create_account_path acctsW savLabel).1 chkLabel).2.1 = 2 ∧
    defaultAcct ∈ (create_account_path (create_account_path acctsW savLabel).1 chkLabel).1 := by
  have h := create_account_path_sequential acctsW savLabel chkLabel
  refine ⟨?_, ?_, h.2.2.2.2 defaultAcct (by decide)⟩
  · rw [h.1]
    decide
  · rw [h.2.1, h.1]
    decide

/-- **C6**: `post_tx` delegates to the node client: `fluff = true` selects
the fluff URL requesting immediate network-wide broadcast, `fluff = false`
the plain pool push URL of the default delayed-relay path; a transport
failure surfaces as a `ClientCallback` error wrapping the underlying error
message, a transport success as `Ok` — in both cases the single transport
response fully determines the result, with no internal retry. -/
theorem post_tx_fluff_and_errors
    (transport : String → TxWrapper → Except String Unit)
    (nodeUrl : String) (tx : TxWrapper) :
    post_tx_url nodeUrl true = nodeUrl ++ pushTxFluffPath ∧
    post_tx_url nodeUrl false = nodeUrl ++ pushTxPath ∧
    (∀ fluff : Bool, ∀ e : String,
      transport (post_tx_url nodeUrl fluff) tx = Except.error e →
      http_post_tx transport nodeUrl tx fluff =
        Except.error (ErrorKind.ClientCallback (postTxErrMsg ++ e))) ∧
    (∀ fluff : Bool, ∀ u : Unit,
      transport (post_tx_url nodeUrl fluff) tx = Except.ok u →
      http_post_tx transport nodeUrl tx fluff = Except.ok ()) := by
  refine ⟨rfl, rfl, ?_, ?_⟩
  · intro fluff e h
    unfold http_post_tx
    rw [h]
  · intro fluff u h
    unfold http_post_tx
    rw [h]

/-- C6 witness: a concrete failing transport surfaces as the wrapped
`ClientCallback` error. -/
theorem post_tx_fluff_and_errors_witness :
    http_post_tx transportFail nodeUrlW txW true =
      Except.error (ErrorKind.ClientCallback (postTxErrMsg ++ connRefused)) :=
  (post_tx_fluff_and_errors transportFail nodeUrlW txW).2.2.1 true connRefused rfl

/-- C9 helper: the chunks concatenate back to the original list whenever
the fuel covers its length. -/
theorem chunksGo_flatten {α : Type u} (n : Nat) (f : Nat) (l : List α)
    (h : l.length ≤ f) : (chunksGo n f l).flatten = l := by
  induction f generalizing l with
  | zero =>
    cases l with
    | nil => rfl
    | cons x xs => simp at h
  | succ f ih =>
    cases l with
    | nil => rfl
    | cons x xs =>
      have h2 : (xs.drop (n - 1)).length ≤ f := by
        rw [List.length_drop]
        have h3 : xs.length ≤ f := by simpa using h
        omega
      show ((x :: xs.take (n - 1)) :: chunksGo n f (xs.drop (n - 1))).flatten =
        x :: xs
      rw [List.flatten_cons, ih _ h2, List.cons_append, List.take_append_drop]

/-- C9 helper: every chunk holds at most `n` elements. -/
theorem chunksGo_length_le {α : Type u} (n f : Nat) (l : List α)
    (hn : 1 ≤ n) (h : l.length ≤ f) :
    ∀ c ∈ chunksGo n f l, c.length ≤ n := by
  induction f generalizing l with
  | zero =>
    cases l with
    | nil => intro c hc; simp [chunksGo] at hc
    | cons x xs => simp at h
  | succ f ih =>
    cases l with
    | nil => intro c hc; simp [chunksGo] at hc
    | cons x xs =>
      intro c hc
      have h2 : (xs.drop (n - 1)).length ≤ f := by
        rw [List.length_drop]
        have h3 : xs.length ≤ f := by simpa using h
        omega
      rcases List.mem_cons.mp hc with rfl | hc
      · simp only [List.length_cons, List.length_take]
        omega
      · exact ih _ h2 c hc

/-- C9 helper: erasing a different key does not change a lookup. -/
theorem mapFind_eraseKey {β : Type v} (m : List (Nat × β)) (k1 k : Nat)
    (h : ¬ k1 = k) :
    mapFind (eraseKey k1 m) k = mapFind m k := by
  induction m with
  | nil => rfl
  | cons p rest ih =>
    by_cases hp : p.1 = k1
    · have hpk : ¬ p.1 = k := by
        rw [hp]
        exact h
      have he : eraseKey k1 (p :: rest) = eraseKey k1 rest := by
        simp [eraseKey, hp]
      rw [he, ih]
      show mapFind rest k = if p.1 = k then some p.2 else mapFind rest k
      rw [if_neg hpk]
    · have he : eraseKey k1 (p :: rest) = p :: eraseKey k1 rest := by
        simp [eraseKey, hp]
      rw [he]
      show (if p.1 = k then some p.2 else mapFind (eraseKey k1 rest) k) =
        (if p.1 = k then some p.2 else mapFind rest k)
      by_cases hk : p.1 = k
      · simp [hk]
      · simp [hk, ih]

/-- C9 helper: `mapInsert` binds `k1` and preserves every other key. -/
theorem mapFind_insert {β : Type v} (m : List (Nat × β)) (k1 k : Nat) (v : β) :
    mapFind (mapInsert m k1 v) k = if k1 = k then some v else mapFind m k := by
  by_cases h : k1 = k
  · subst h
    simp [mapInsert, mapFind]
  · have hstep : mapFind (mapInsert m k1 v) k = mapFind (eraseKey k1 m) k := by
      show (if k1 = k then some v else mapFind (eraseKey k1 m) k) = _
      rw [if_neg h]
    rw [hstep, mapFind_eraseKey m k1 k h, if_neg h]

/-- C9 helper: the key set of the insert-fold is the initial key set plus
the commitments of the inserted outputs. -/
theorem mapFind_foldl_isSome (outs : List ApiOutput)
    (m : List (Nat × (String × Nat × Nat))) (k : Nat) :
    (mapFind (outs.foldl (fun acc out =>
        mapInsert acc out.commit (commitHex out.commit, out.height, out.mmrIndex))
        m) k).isSome
      = true ↔
    (mapFind m k).isSome = true ∨ ∃ out ∈ outs, out.commit = k := by
  induction outs generalizing m with
  | nil => simp
  | cons o rest ih =>
    rw [List.foldl_cons, ih, mapFind_insert]
    by_cases h : o.commit = k
    · simp [h]
    · simp only [h, if_false, List.mem_cons]
      constructor
      · rintro (hm | ⟨out, hout, hk⟩)
        · exact Or.inl hm
        · exact Or.inr ⟨out, Or.inr hout, hk⟩
      · rintro (hm | ⟨out, hout, hk⟩)
        · exact Or.inl hm
        · rcases hout with rfl | hout
          · exact absurd hk h
          · exact Or.inr ⟨out, hout, hk⟩

/-- **C9**: `get_outputs_from_node` splits the requested commitment list
into chunks of at most 200 commitments per HTTP request — the chunks
partition the request — and returns a single map whose keys are exactly the
commitments reported in some per-chunk response: a commitment the node does
not report has no entry. -/
theorem get_outputs_from_node_chunks (node : List Nat → List ApiOutput)
    (walletOutputs : List Nat) (k : Nat) :
    (chunksOf 200 walletOutputs).flatten = walletOutputs ∧
    (∀ c ∈ chunksOf 200 walletOutputs, c.length ≤ 200) ∧
    ((mapFind (get_outputs_from_node node walletOutputs) k).isSome = true ↔
      ∃ c ∈ chunksOf 200 walletOutputs, ∃ out ∈ node c, out.commit = k) := by
  refine ⟨chunksGo_flatten 200 _ _ (le_refl _),
    chunksGo_length_le 200 _ _ (by omega) (le_refl _), ?_⟩
  unfold get_outputs_from_node
  rw [mapFind_foldl_isSome]
  simp only [mapFind, Option.isSome_none, Bool.false_eq_true, false_or]
  constructor
  · rintro ⟨out, hout, hk⟩
    rcases List.mem_flatten.mp hout with ⟨l, hl, hout2⟩
    rcases List.mem_map.mp hl with ⟨c, hc, rfl⟩
    exact ⟨c, hc, out, hout2, hk⟩
  · rintro ⟨c, hc, out, hout, hk⟩
    exact ⟨out, List.mem_flatten.mpr ⟨node c, List.mem_map.mpr ⟨c, hc, rfl⟩, hout⟩,
      hk⟩

/-- C9 witness: a commitment reported by the node for the single chunk of a
concrete three-element request has an entry in the returned map. -/
theorem get_outputs_from_node_chunks_witness :
    (mapFind (get_outputs_from_node nodeW [1, 2, 3]) 2).isSome = true := by
  apply (get_outputs_from_node_chunks nodeW [1, 2, 3] 2).2.2.mpr
  refine ⟨[1, 2, 3], by decide,
    { commit := 2, height := 10, mmrIndex := 20 }, by decide, rfl⟩

/-- C10 helper: the conversion loop succeeds when every output carries both
optional fields. -/
theorem pmmrEntries_isSome (l : List NodeApiOutput)
    (h : ∀ out ∈ l, out.rangeProofHex.isSome = true ∧
      out.blockHeight.isSome = true) :
    (pmmrEntries l).isSome = true := by
  induction l with
  | nil => rfl
  | cons out rest ih =>
    have h1 := h out (List.mem_cons_self _ _)
    have h2 := ih (fun o ho => h o (List.mem_cons_of_mem _ ho))
    rcases Option.isSome_iff_exists.mp h1.1 with ⟨rp, hrp⟩
    rcases Option.isSome_iff_exists.mp h1.2 with ⟨bh, hbh⟩
    rcases Option.isSome_iff_exists.mp h2 with ⟨es, hes⟩
    simp [pmmrEntries, pmmrEntry, hrp, hbh, hes]

/-- **C10**: `get_outputs_by_pmmr_index` is total only under the
precondition that every output of the node's page carries both a range
proof and a block height — then it returns; it unwraps those optional
fields, so a response whose output lacks the block height makes it panic
(`none`) instead of returning an `Err`; a failed node call, by contrast,
returns the `ClientCallback` error. -/
theorem get_outputs_by_pmmr_index_unwraps :
    (∀ o : OutputListing,
      (∀ out ∈ o.outputs, out.rangeProofHex.isSome = true ∧
        out.blockHeight.isSome = true) →
      (get_outputs_by_pmmr_index (Except.ok o)).isSome = true) ∧
    get_outputs_by_pmmr_index (Except.ok badListing) = none ∧
    (∀ e : String, get_outputs_by_pmmr_index (Except.error e) =
      some (Except.error (ErrorKind.ClientCallback (pmmrErrMsg ++ e)))) := by
  refine ⟨?_, rfl, fun e => rfl⟩
  intro o h
  rcases Option.isSome_iff_exists.mp (pmmrEntries_isSome o.outputs h) with ⟨l, hl⟩
  have hred : get_outputs_by_pmmr_index (Except.ok o) =
      (pmmrEntries o.outputs).map
        (fun es => Except.ok (o.highestIndex, o.lastRetrievedIndex, es)) := rfl
  rw [hred, hl]
  rfl

/-- C10 witness: the concrete listing lacking a block height panics
(`none`), while the fully populated listing returns. -/
theorem get_outputs_by_pmmr_index_unwraps_witness :
    get_outputs_by_pmmr_index (Except.ok badListing) = none ∧
    (get_outputs_by_pmmr_index (Except.ok goodListing)).isSome = true :=
  ⟨get_outputs_by_pmmr_index_unwraps.2.1,
   get_outputs_by_pmmr_index_unwraps.1 goodListing (by decide)⟩

/-- C3 witness: on the concrete wallet, cancelling after locking succeeds
and produces exactly the unlocked state. -/
theorem cancel_tx_inverts_lock_witness :
    cancel_tx (tx_lock_outputs walletW [1] 0 7) (some 7) none =
      Except.ok
        { outputs := cancelOutputs (tx_lock_outputs walletW [1] 0 7).outputs 7,
          txLog := walletW.txLog.map (fun x =>
            if x.entryId = 7 then cancelTxLogEntry x else x) } :=
  (cancel_tx_inverts_lock walletW [1] 0 7 entryW (by decide) rfl).1

end MwcWallet
